import Mathlib

/-!
Shallow embedding of the desidict Flask application (src/desidict.py): a
crowdsourced dictionary backed by two Mongo collections, `words` and `users`.
The embedding models each HTTP handler as a pure function from the database
state (plus the session) to a new state and a response.  Mongo single-document
operations are modelled on lists of documents: `update_one` updates the first
matching document, `$inc` adds to a counter, `$addToSet` appends when absent,
`$pull` removes all occurrences, and the sort stage orders by upvote descending
then by id descending.
-/

namespace DesiDict

/-- Word moderation status: the status field of a word document. -/
inductive Status where
  | pending
  | approved
  | declined
deriving DecidableEq, Repr

/-- A document of the words collection, as built by postword.  The Mongo
ObjectId is modelled as a natural number `oid`. -/
structure Word where
  oid : Nat
  word : String
  definition : String
  email : String
  userHandle : String
  upvote : Int
  downvote : Int
  status : Status
  authorID : String
  postedDate : Nat
  languages : String
  partofspeech : String
  gender : String
  conjugates : String
  usageexample : String
  synonyms : String
  antonyms : String
  region : String
  zipcode : String
deriving DecidableEq, Repr

/-- A document of the users collection, as built by the login callback. -/
structure User where
  google_id : String
  name : String
  email : String
  picture : String
  email_verified : Bool
  words_author : List Nat
  upvotes : List Nat
  downvotes : List Nat
deriving DecidableEq, Repr

/-- The whole document store: the words and users collections. -/
structure DB where
  words : List Word
  users : List User
deriving DecidableEq, Repr

/-- The authenticated part of the Flask session: google_id, name, email and
the stored return url.  An absent session is modelled as `Option.none`. -/
structure Session where
  google_id : String
  name : String
  email : String
  url : String
deriving DecidableEq, Repr

/-- The observable outcome of a handler: a redirect to a target, or an
unhandled exception surfacing as a server error. -/
inductive Response where
  | redirect (target : String)
  | serverError
deriving DecidableEq, Repr

/-- Mongo update_one: apply `f` to the first element satisfying `p`. -/
def updateFirst {α : Type} (p : α → Bool) (f : α → α) : List α → List α
  | [] => []
  | x :: xs => if p x then f x :: xs else x :: updateFirst p f xs

/-- update_one on the words collection, keyed by the document id. -/
def updateWordById (ws : List Word) (wid : Nat) (f : Word → Word) : List Word :=
  updateFirst (fun w => w.oid == wid) f ws

/-- update_one on the users collection, keyed by google_id. -/
def updateUserById (us : List User) (gid : String) (f : User → User) : List User :=
  updateFirst (fun u => u.google_id == gid) f us

/-- Mongo find_one by word id (first matching document). -/
def findById (ws : List Word) (wid : Nat) : Option Word :=
  ws.find? (fun w => w.oid == wid)

/-- Mongo find_one by user google_id (first matching document). -/
def findUser (us : List User) (gid : String) : Option User :=
  us.find? (fun u => u.google_id == gid)

/-- Mongo addToSet on an array field: append the value when it is absent. -/
def addToSet (l : List Nat) (x : Nat) : List Nat :=
  if x ∈ l then l else l ++ [x]

/-- Mongo pull on an array field: remove every occurrence of the value. -/
def pull (l : List Nat) (x : Nat) : List Nat :=
  l.filter (fun y => y != x)

/-- The sort key used by the listing and search pipelines: upvote descending,
ties broken by id descending. -/
def wordBefore (a b : Word) : Prop :=
  b.upvote < a.upvote ∨ (a.upvote = b.upvote ∧ b.oid ≤ a.oid)

instance : DecidableRel wordBefore := fun a b =>
  inferInstanceAs (Decidable (b.upvote < a.upvote ∨ (a.upvote = b.upvote ∧ b.oid ≤ a.oid)))

instance : IsTotal Word wordBefore where
  total a b := by
    rcases lt_trichotomy a.upvote b.upvote with h | h | h
    · exact Or.inr (Or.inl h)
    · rcases Nat.le_total b.oid a.oid with h2 | h2
      · exact Or.inl (Or.inr ⟨h, h2⟩)
      · exact Or.inr (Or.inr ⟨h.symm, h2⟩)
    · exact Or.inl (Or.inl h)

instance : IsTrans Word wordBefore where
  trans a b c hab hbc := by
    rcases hab with h1 | ⟨h1e, h1i⟩ <;> rcases hbc with h2 | ⟨h2e, h2i⟩
    · exact Or.inl (h2.trans h1)
    · exact Or.inl (h2e ▸ h1)
    · exact Or.inl (h1e ▸ h2)
    · exact Or.inr ⟨h1e.trans h2e, h2i.trans h1i⟩

/-- The match stage of the listing pipeline: status equals approved. -/
def approvedFilter (w : Word) : Bool :=
  w.status == Status.approved

/-- Lower-case an ASCII letter, other characters unchanged (models
str.lower on the ASCII content relevant here). -/
def lowerChar (c : Char) : Char :=
  if 65 ≤ c.toNat ∧ c.toNat ≤ 90 then Char.ofNat (c.toNat + 32) else c

/-- Lower-case a string character by character. -/
def lowerString (s : String) : String :=
  String.mk (s.data.map lowerChar)

/-- Split a character list into whitespace-separated tokens. -/
def splitTokens : List Char → List Char → List String
  | [], acc => [String.mk acc.reverse]
  | c :: cs, acc =>
      if c = ' ' then String.mk acc.reverse :: splitTokens cs []
      else splitTokens cs (c :: acc)

/-- The lower-cased tokens of a text field, as indexed by the store. -/
def tokensOf (s : String) : List String :=
  splitTokens (s.data.map lowerChar) []

/-- Modelled from the spec: the store's full-text index over word/definition
content (the Mongo text operator, external to the repository) is modelled as
case-insensitive whole-token match against the word and definition fields. -/
def textMatches (q : String) (w : Word) : Bool :=
  (tokensOf w.word ++ tokensOf w.definition).contains q

/-- Handler for POST /upvote/word_id: without a session, redirect to the
login page; otherwise increment the word's upvote counter and add the word id
to the caller's upvotes array with addToSet. -/
def upvote_word (sess : Option Session) (wid : Nat) (db : DB) : DB × Response :=
  match sess with
  | none => (db, Response.redirect "/user")
  | some ses =>
      let words := updateWordById db.words wid (fun w => { w with upvote := w.upvote + 1 })
      let users := updateUserById db.users ses.google_id
        (fun u => { u with upvotes := addToSet u.upvotes wid })
      ({ words := words, users := users }, Response.redirect ses.url)

/-- Handler for POST /downvote/word_id: symmetric to upvote_word on the
downvote counter and the downvotes array. -/
def downvote_word (sess : Option Session) (wid : Nat) (db : DB) : DB × Response :=
  match sess with
  | none => (db, Response.redirect "/user")
  | some ses =>
      let words := updateWordById db.words wid (fun w => { w with downvote := w.downvote + 1 })
      let users := updateUserById db.users ses.google_id
        (fun u => { u with downvotes := addToSet u.downvotes wid })
      ({ words := words, users := users }, Response.redirect ses.url)

/-- Handler for POST /undo_upvote/word_id.  The session check is commented
out in the source: the word update runs first unconditionally, and only the
subsequent lookup of google_id in the session raises when no session exists,
so the decrement is already persisted when the request errors. -/
def undo_upvote (sess : Option Session) (wid : Nat) (db : DB) : DB × Response :=
  let words := updateWordById db.words wid (fun w => { w with upvote := w.upvote - 1 })
  match sess with
  | none => ({ words := words, users := db.users }, Response.serverError)
  | some ses =>
      let users := updateUserById db.users ses.google_id
        (fun u => { u with upvotes := pull u.upvotes wid })
      ({ words := words, users := users }, Response.redirect ses.url)

/-- Handler for POST /undo_downvote/word_id: symmetric to undo_upvote. -/
def undo_downvote (sess : Option Session) (wid : Nat) (db : DB) : DB × Response :=
  let words := updateWordById db.words wid (fun w => { w with downvote := w.downvote - 1 })
  match sess with
  | none => ({ words := words, users := db.users }, Response.serverError)
  | some ses =>
      let users := updateUserById db.users ses.google_id
        (fun u => { u with downvotes := pull u.downvotes wid })
      ({ words := words, users := users }, Response.redirect ses.url)

/-- Handler for GET /: the listing of approved words.  The page size is 8,
totalPages is the ceiling of the approved count over 8, and the output page is
the pipeline sort (upvote descending, id descending), match status approved,
skip offset, limit 8.  The logged-in branch of the source returns the same
page of words, additionally annotated with the viewer's per-word vote flags;
the annotation is presentational and not part of the returned page model. -/
def get_words (db : DB) (pageNo : Nat) : List Word × Nat :=
  let limit := 8
  let offset := (pageNo - 1) * limit
  let word_order := db.words.filter approvedFilter
  let totalPages := (word_order.length + limit - 1) / limit
  let outputWords :=
    (((List.insertionSort wordBefore db.words).filter approvedFilter).drop offset).take limit
  (outputWords, totalPages)

/-- Handler for GET /search/: the page size is 2, totalPages is the ceiling
over 2 of the count of ALL text matches (no status filter in that first
pipeline), and the output page matches status approved and the text query,
sorted and paginated as in the listing. -/
def search (q : String) (pageNo : Nat) (db : DB) : List Word × Nat :=
  let searchString := lowerString q
  let limit := 2
  let offset := (pageNo - 1) * limit
  let word_order := db.words.filter (fun w => textMatches searchString w)
  let totalPages := (word_order.length + limit - 1) / limit
  let outputWords :=
    ((List.insertionSort wordBefore
        (db.words.filter (fun w => approvedFilter w && textMatches searchString w))).drop
      offset).take limit
  (outputWords, totalPages)

/-- The word document holding the largest id, i.e. the result of the source's
find with sort by id descending, limit 1 (ties resolved to the earlier
document, as a stable descending sort does). -/
def maxIdWord : List Word → Option Word
  | [] => none
  | w :: ws =>
      match maxIdWord ws with
      | none => some w
      | some m => if m.oid ≤ w.oid then some w else some m

/-- The form fields read by postword (all required; anonCheck is the optional
checkbox value). -/
structure WordForm where
  word : String
  language : String
  part_of_speech : String
  gender : String
  conjugates : String
  usage_example : String
  synonyms : String
  antonyms : String
  region : String
  uploaded_zip_code : String
  definition : String
  anonCheck : Option String
deriving DecidableEq, Repr

/-- The word document assembled by postword from the form, the session and
the current timestamp: status pending, both counters zero, display handle
Anonymous exactly when the anonymous checkbox was set. -/
def mkSubmission (ses : Session) (now newId : Nat) (form : WordForm) : Word :=
  { oid := newId
    word := form.word
    definition := form.definition
    email := ses.email
    userHandle := if form.anonCheck = some "anonTrue" then "Anonymous" else ses.name
    upvote := 0
    downvote := 0
    status := Status.pending
    authorID := ses.google_id
    postedDate := now
    languages := form.language
    partofspeech := form.part_of_speech
    gender := form.gender
    conjugates := form.conjugates
    usageexample := form.usage_example
    synonyms := form.synonyms
    antonyms := form.antonyms
    region := form.region
    zipcode := form.uploaded_zip_code }

/-- Handler for POST /postword on a valid submission by an authenticated
caller: build the word document with status pending, zero counters, the
current timestamp `now` and the display handle, insert it (with fresh id
`newId`), then look up the largest id in the collection and push it onto the
author's words_author array. -/
def postword (ses : Session) (now newId : Nat) (form : WordForm) (db : DB) : DB × Response :=
  let words := db.words ++ [mkSubmission ses now newId form]
  let users :=
    match maxIdWord words with
    | none => db.users
    | some latest =>
        updateUserById db.users ses.google_id
          (fun u => { u with words_author := u.words_author ++ [latest.oid] })
  ({ words := words, users := users }, Response.redirect "/addword")

/-- Handler for POST /adminDashboard/action/word_id: each branch looks the
word up (the emptiness test against None in the source is vacuous, a loaded
cursor list is never None) and sets the status for the matching document; an
absent id makes update_one match nothing.  No guard inspects the current
status. -/
def approve_word (action : String) (wid : Nat) (db : DB) : DB × Response :=
  let words1 :=
    if action = "approve" then
      updateWordById db.words wid (fun w => { w with status := Status.approved })
    else db.words
  let words2 :=
    if action = "decline" then
      updateWordById words1 wid (fun w => { w with status := Status.declined })
    else words1
  ({ words := words2, users := db.users }, Response.redirect "/adminDashboard")

/-! ### Concrete stores used to exercise the handlers -/

/-- A word with the given id, upvote count, status and texts; the metadata
fields are irrelevant to the claims and left blank. -/
def mkWord (i : Nat) (up : Int) (st : Status) (wtext dtext : String) : Word :=
  { oid := i
    word := wtext
    definition := dtext
    email := ""
    userHandle := ""
    upvote := up
    downvote := 0
    status := st
    authorID := ""
    postedDate := 0
    languages := ""
    partofspeech := ""
    gender := ""
    conjugates := ""
    usageexample := ""
    synonyms := ""
    antonyms := ""
    region := ""
    zipcode := "" }

/-- A session for the user with google_id g. -/
def ses0 : Session :=
  { google_id := "g", name := "Tester", email := "t@example.com", url := "/" }

/-- Ten approved words with upvotes 1..10 (in insertion order), the store of
the pagination scenario. -/
def db10 : DB :=
  { words := (List.range 10).map (fun i => mkWord (i + 1) (Int.ofNat (i + 1)) Status.approved "w" "d")
    users := [] }

/-- A store holding a single declined word. -/
def dbDecl : DB :=
  { words := [mkWord 1 5 Status.declined "w" "d"], users := [] }

/-- A user who has already downvoted word 1 and upvoted nothing. -/
def uDown : User :=
  { google_id := "g"
    name := "Tester"
    email := "t@example.com"
    picture := ""
    email_verified := true
    words_author := []
    upvotes := []
    downvotes := [1] }

/-- A store where user g has already downvoted the approved word 1. -/
def dbC3 : DB :=
  { words := [mkWord 1 0 Status.approved "w" "d"], users := [uDown] }

/-- The single approved word whose definition contains the token zebra. -/
def wZebra : Word := mkWord 1 0 Status.approved "alpha" "the zebra word"

/-- A store where the token zebra occurs in one approved word and also in a
pending and a declined word. -/
def dbSearch : DB :=
  { words :=
      [wZebra,
       mkWord 2 0 Status.pending "beta" "zebra again",
       mkWord 3 0 Status.declined "gamma" "zebra thrice"]
    users := [] }

/-- A store where the token zebra occurs in exactly one word overall, and
that word is approved. -/
def dbSingle : DB :=
  { words := [wZebra, mkWord 2 0 Status.pending "beta" "nothing here"], users := [] }

/-- A complete submission form with blank texts and no anonymous checkbox. -/
def form0 : WordForm :=
  { word := "hello"
    language := ""
    part_of_speech := ""
    gender := ""
    conjugates := ""
    usage_example := ""
    synonyms := ""
    antonyms := ""
    region := ""
    uploaded_zip_code := ""
    definition := "a greeting"
    anonCheck := none }


/-! ### Lemmas about the store primitives -/

theorem updateFirst_eq_self {α : Type} (p : α → Bool) (f : α → α) :
    ∀ l : List α, l.find? p = none → updateFirst p f l = l
  | [], _ => rfl
  | x :: xs, h => by
      cases hp : p x with
      | false =>
          have hx : xs.find? p = none := by
            rw [List.find?_cons_of_neg _ (by simp [hp])] at h
            exact h
          simp [updateFirst, hp, updateFirst_eq_self p f xs hx]
      | true =>
          rw [List.find?_cons_of_pos _ hp] at h
          exact absurd h (by simp)

theorem find?_updateFirst {α : Type} (p : α → Bool) (f : α → α)
    (hf : ∀ x, p x = true → p (f x) = true) :
    ∀ l : List α, (updateFirst p f l).find? p = (l.find? p).map f
  | [] => rfl
  | x :: xs => by
      cases hp : p x with
      | false =>
          simp only [updateFirst, hp, Bool.false_eq_true, if_false]
          rw [List.find?_cons_of_neg _ (by simp [hp]), List.find?_cons_of_neg _ (by simp [hp])]
          exact find?_updateFirst p f hf xs
      | true =>
          simp only [updateFirst, hp, if_true]
          rw [List.find?_cons_of_pos _ (hf x hp), List.find?_cons_of_pos _ hp]
          rfl

theorem mem_updateFirst {α : Type} {p : α → Bool} {f : α → α} :
    ∀ {l : List α} {y : α}, y ∈ updateFirst p f l → y ∈ l ∨ ∃ x, x ∈ l ∧ y = f x := by
  intro l
  induction l with
  | nil => intro y hy; exact absurd hy (by simp [updateFirst])
  | cons x xs ih =>
      intro y hy
      cases hp : p x with
      | true =>
          simp only [updateFirst, hp, if_true, List.mem_cons] at hy
          rcases hy with hy | hy
          · exact Or.inr ⟨x, List.mem_cons_self x xs, hy⟩
          · exact Or.inl (List.mem_cons_of_mem x hy)
      | false =>
          simp only [updateFirst, hp, Bool.false_eq_true, if_false, List.mem_cons] at hy
          rcases hy with hy | hy
          · exact Or.inl (hy ▸ List.mem_cons_self x xs)
          · rcases ih hy with h | ⟨z, hz, hyz⟩
            · exact Or.inl (List.mem_cons_of_mem x h)
            · exact Or.inr ⟨z, List.mem_cons_of_mem x hz, hyz⟩

theorem findById_updateWordById (ws : List Word) (wid : Nat) (f : Word → Word)
    (hf : ∀ w, (f w).oid = w.oid) :
    findById (updateWordById ws wid f) wid = (findById ws wid).map f := by
  exact find?_updateFirst _ f (fun w hw => by simpa [hf w] using hw) ws

theorem findUser_updateUserById (us : List User) (gid : String) (f : User → User)
    (hf : ∀ u, (f u).google_id = u.google_id) :
    findUser (updateUserById us gid f) gid = (findUser us gid).map f := by
  exact find?_updateFirst _ f (fun u hu => by simpa [hf u] using hu) us

theorem addToSet_idem (l : List Nat) (x : Nat) : addToSet (addToSet l x) x = addToSet l x := by
  by_cases h : x ∈ l
  · simp [addToSet, h]
  · simp [addToSet, h]

theorem mem_addToSet (l : List Nat) (x : Nat) : x ∈ addToSet l x := by
  by_cases h : x ∈ l
  · simp [addToSet, h]
  · simp [addToSet, h]

/-- The output page of the listing pipeline is a sublist of the sorted list,
hence sorted; this is the shared sortedness argument for listing and search. -/
theorem sorted_page (l : List Word) (p : Word → Bool) (off lim : Nat) :
    List.Sorted wordBefore ((((List.insertionSort wordBefore l).filter p).drop off).take lim) := by
  have hs : List.Sorted wordBefore (List.insertionSort wordBefore l) :=
    List.sorted_insertionSort wordBefore l
  have hsub :
      ((((List.insertionSort wordBefore l).filter p).drop off).take lim).Sublist
        (List.insertionSort wordBefore l) :=
    ((List.take_sublist _ _).trans (List.drop_sublist _ _)).trans (List.filter_sublist _)
  exact List.Pairwise.sublist hsub hs

/-- Membership in an output page implies satisfying the page's filter. -/
theorem mem_page_filter {l : List Word} {p : Word → Bool} {off lim : Nat} {w : Word}
    (hw : w ∈ (((List.insertionSort wordBefore l).filter p).drop off).take lim) :
    p w = true := by
  have h1 : w ∈ ((List.insertionSort wordBefore l).filter p).drop off :=
    List.mem_of_mem_take hw
  have h2 : w ∈ (List.insertionSort wordBefore l).filter p := List.mem_of_mem_drop h1
  exact List.of_mem_filter h2

/-- A page cut out of the sort of a filtered list is sorted; this is the
shape of the search pipeline. -/
theorem sorted_page2 (l : List Word) (off lim : Nat) :
    List.Sorted wordBefore (((List.insertionSort wordBefore l).drop off).take lim) :=
  List.Pairwise.sublist ((List.take_sublist _ _).trans (List.drop_sublist _ _))
    (List.sorted_insertionSort wordBefore l)

/-- Membership in a page of the sorted filtered list implies satisfying the
filter; this is the shape of the search pipeline. -/
theorem mem_page_filter2 {l : List Word} {p : Word → Bool} {off lim : Nat} {w : Word}
    (hw : w ∈ ((List.insertionSort wordBefore (l.filter p)).drop off).take lim) :
    p w = true := by
  have h1 : w ∈ (List.insertionSort wordBefore (l.filter p)).drop off :=
    List.mem_of_mem_take hw
  have h2 : w ∈ List.insertionSort wordBefore (l.filter p) := List.mem_of_mem_drop h1
  have h3 : w ∈ l.filter p := (List.perm_insertionSort wordBefore (l.filter p)).mem_iff.mp h2
  exact List.of_mem_filter h3

/-! ### The claims -/

/-- C1: for every word and every authenticated user, upvote_word increments
the word's upvote counter by exactly 1 and adds the word id to the user's
upvotes with set semantics; a second upvote for the same pair leaves the
user's document unchanged (no duplicate membership) while the counter has
grown by 2 in total. -/
theorem upvote_word_spec (ses : Session) (wid : Nat) (db : DB) :
    findById (upvote_word (some ses) wid db).1.words wid
      = (findById db.words wid).map (fun w => { w with upvote := w.upvote + 1 })
    ∧ findUser (upvote_word (some ses) wid db).1.users ses.google_id
      = (findUser db.users ses.google_id).map
          (fun u => { u with upvotes := addToSet u.upvotes wid })
    ∧ findById (upvote_word (some ses) wid (upvote_word (some ses) wid db).1).1.words wid
      = (findById db.words wid).map (fun w => { w with upvote := w.upvote + 2 })
    ∧ findUser (upvote_word (some ses) wid (upvote_word (some ses) wid db).1).1.users
        ses.google_id
      = findUser (upvote_word (some ses) wid db).1.users ses.google_id := by
  have hw : ∀ x : DB,
      findById (upvote_word (some ses) wid x).1.words wid
        = (findById x.words wid).map (fun w => { w with upvote := w.upvote + 1 }) :=
    fun x => findById_updateWordById x.words wid _ (fun _ => rfl)
  have hu : ∀ x : DB,
      findUser (upvote_word (some ses) wid x).1.users ses.google_id
        = (findUser x.users ses.google_id).map
            (fun u => { u with upvotes := addToSet u.upvotes wid }) :=
    fun x => findUser_updateUserById x.users ses.google_id _ (fun _ => rfl)
  refine ⟨hw db, hu db, ?_, ?_⟩
  · rw [hw _, hw db]
    cases findById db.words wid with
    | none => rfl
    | some w =>
        simp only [Option.map_some']
        congr 1
        simp only [Word.mk.injEq, and_true, true_and]
        omega
  · rw [hu _, hu db]
    cases findUser db.users ses.google_id with
    | none => rfl
    | some u =>
        simp only [Option.map_some']
        congr 1
        simp [addToSet_idem]

/-- C6: for every valid submission, the Word created by postword is appended
to the words collection with status pending, both counters zero, the
submission timestamp, and the display handle Anonymous exactly when the
anonymous checkbox is set, else the author's display name. -/
theorem postword_spec (ses : Session) (now newId : Nat) (form : WordForm) (db : DB) :
    (postword ses now newId form db).1.words = db.words ++ [mkSubmission ses now newId form]
    ∧ (mkSubmission ses now newId form).status = Status.pending
    ∧ (mkSubmission ses now newId form).upvote = 0
    ∧ (mkSubmission ses now newId form).downvote = 0
    ∧ (mkSubmission ses now newId form).postedDate = now
    ∧ (mkSubmission ses now newId form).userHandle
        = (if form.anonCheck = some "anonTrue" then "Anonymous" else ses.name) :=
  ⟨rfl, rfl, rfl, rfl, rfl, rfl⟩

/-- C8 as amended: an unauthenticated upvote or downvote redirects to the
login page and leaves the store untouched, but undo_upvote and undo_downvote
perform no session check at all: they decrement the word's counter and then
error, leaving the words collection mutated and the users collection
unchanged. -/
theorem unauth_vote_spec (wid : Nat) (db : DB) :
    upvote_word none wid db = (db, Response.redirect "/user")
    ∧ downvote_word none wid db = (db, Response.redirect "/user")
    ∧ (undo_upvote none wid db).2 = Response.serverError
    ∧ (undo_upvote none wid db).1.users = db.users
    ∧ findById (undo_upvote none wid db).1.words wid
        = (findById db.words wid).map (fun w => { w with upvote := w.upvote - 1 })
    ∧ (undo_downvote none wid db).2 = Response.serverError
    ∧ (undo_downvote none wid db).1.users = db.users
    ∧ findById (undo_downvote none wid db).1.words wid
        = (findById db.words wid).map (fun w => { w with downvote := w.downvote - 1 }) := by
  refine ⟨rfl, rfl, rfl, rfl, ?_, rfl, rfl, ?_⟩
  · exact findById_updateWordById db.words wid _ (fun _ => rfl)
  · exact findById_updateWordById db.words wid _ (fun _ => rfl)

/-- C8 counterexample: an unauthenticated undo_upvote neither redirects to
the login page nor leaves the words collection unchanged. -/
theorem undo_unauth_counterexample :
    (undo_upvote none 1 dbC3).2 ≠ Response.redirect "/user"
    ∧ (undo_upvote none 1 dbC3).1.words ≠ dbC3.words := by decide

/-- The counters invariant of the spec: every stored word has nonnegative
upvote and downvote counters. -/
def countersNonneg (db : DB) : Prop :=
  ∀ w ∈ db.words, 0 ≤ w.upvote ∧ 0 ≤ w.downvote

instance (db : DB) : Decidable (countersNonneg db) :=
  inferInstanceAs (Decidable (∀ w ∈ db.words, 0 ≤ w.upvote ∧ 0 ≤ w.downvote))

/-- Nonnegativity of the counters is preserved by update_one with a
counter-safe document transformer. -/
theorem nonneg_updateWordById {ws : List Word}
    (h : ∀ w ∈ ws, 0 ≤ w.upvote ∧ 0 ≤ w.downvote) (wid : Nat) (f : Word → Word)
    (hf : ∀ w, 0 ≤ w.upvote ∧ 0 ≤ w.downvote → 0 ≤ (f w).upvote ∧ 0 ≤ (f w).downvote) :
    ∀ w ∈ updateWordById ws wid f, 0 ≤ w.upvote ∧ 0 ≤ w.downvote := by
  intro w hw
  rcases mem_updateFirst hw with hm | ⟨x, hx, rfl⟩
  · exact h w hm
  · exact hf x (h x hx)

/-- C2 counterexample: the counters start nonnegative, yet one undo_upvote by
an authenticated caller who never voted on the word drives the word's upvote
counter below zero, so the invariant is not preserved by every operation. -/
theorem counters_nonneg_counterexample :
    countersNonneg dbC3 ∧ ¬ countersNonneg (undo_upvote (some ses0) 1 dbC3).1 := by
  decide

/-- C2 as amended: nonnegativity of both counters is preserved by
upvote_word, downvote_word, approve_word and postword, but undo_upvote and
undo_downvote decrement the matched word's counter by 1 with no floor check,
so a counter can become negative when the undo is not preceded by a vote. -/
theorem counters_spec (sess : Option Session) (ses : Session) (wid : Nat) (action : String)
    (now newId : Nat) (form : WordForm) (db : DB) (h : countersNonneg db) :
    countersNonneg (upvote_word sess wid db).1
    ∧ countersNonneg (downvote_word sess wid db).1
    ∧ countersNonneg (approve_word action wid db).1
    ∧ countersNonneg (postword ses now newId form db).1
    ∧ findById (undo_upvote sess wid db).1.words wid
        = (findById db.words wid).map (fun w => { w with upvote := w.upvote - 1 })
    ∧ findById (undo_downvote sess wid db).1.words wid
        = (findById db.words wid).map (fun w => { w with downvote := w.downvote - 1 }) := by
  refine ⟨?_, ?_, ?_, ?_, ?_, ?_⟩
  · cases sess with
    | none => exact h
    | some s =>
        intro w hw
        refine nonneg_updateWordById h wid _ ?_ w hw
        intro x hx
        constructor
        · show 0 ≤ x.upvote + 1
          omega
        · exact hx.2
  · cases sess with
    | none => exact h
    | some s =>
        intro w hw
        refine nonneg_updateWordById h wid _ ?_ w hw
        intro x hx
        constructor
        · exact hx.1
        · show 0 ≤ x.downvote + 1
          omega
  · intro w hw
    by_cases ha : action = "approve"
    · subst ha
      have hw' : w ∈ updateWordById db.words wid (fun x => { x with status := Status.approved }) :=
        hw
      exact nonneg_updateWordById h wid (fun x => { x with status := Status.approved })
        (fun x hx => hx) w hw'
    · by_cases hd : action = "decline"
      · subst hd
        have hw' : w ∈ updateWordById db.words wid (fun x => { x with status := Status.declined }) :=
          hw
        exact nonneg_updateWordById h wid (fun x => { x with status := Status.declined })
          (fun x hx => hx) w hw'
      · have hsame : (approve_word action wid db).1.words = db.words := by
          simp [approve_word, ha, hd]
        rw [hsame] at hw
        exact h w hw
  · intro w hw
    have hw' : w ∈ db.words ++ [mkSubmission ses now newId form] := hw
    rcases List.mem_append.mp hw' with hm | hm
    · exact h w hm
    · have hweq : w = mkSubmission ses now newId form := by simpa using hm
      subst hweq
      exact ⟨le_refl 0, le_refl 0⟩
  · cases sess with
    | none => exact findById_updateWordById db.words wid _ (fun _ => rfl)
    | some s => exact findById_updateWordById db.words wid _ (fun _ => rfl)
  · cases sess with
    | none => exact findById_updateWordById db.words wid _ (fun _ => rfl)
    | some s => exact findById_updateWordById db.words wid _ (fun _ => rfl)

/-- C2 witness: a concrete nonnegative store stays nonnegative under an
upvote. -/
theorem counters_spec_witness : countersNonneg (upvote_word (some ses0) 1 dbC3).1 :=
  (counters_spec (some ses0) ses0 1 "approve" 0 2 form0 dbC3 (by decide)).1

/-- C3 counterexample: user g has already downvoted word 1; after upvoting
the same word, the id 1 sits in both of the user's vote sets at once. -/
theorem vote_sets_counterexample :
    findUser (upvote_word (some ses0) 1 dbC3).1.users "g" = some { uDown with upvotes := [1] }
    ∧ (1 : Nat) ∈ ({ uDown with upvotes := [1] } : User).upvotes
    ∧ (1 : Nat) ∈ ({ uDown with upvotes := [1] } : User).downvotes := by
  decide

/-- C3 as amended: upvote_word adds the word id to the caller's upvote set
and leaves the downvote set untouched (and symmetrically for downvote_word);
in particular upvoting a word already downvoted by the caller leaves the id
in both sets at once. -/
theorem vote_sets_spec (ses : Session) (wid : Nat) (db : DB) :
    findUser (upvote_word (some ses) wid db).1.users ses.google_id
      = (findUser db.users ses.google_id).map
          (fun u => { u with upvotes := addToSet u.upvotes wid })
    ∧ findUser (downvote_word (some ses) wid db).1.users ses.google_id
      = (findUser db.users ses.google_id).map
          (fun u => { u with downvotes := addToSet u.downvotes wid })
    ∧ (∀ u, findUser db.users ses.google_id = some u → wid ∈ u.downvotes →
        ∃ v, findUser (upvote_word (some ses) wid db).1.users ses.google_id = some v
          ∧ wid ∈ v.upvotes ∧ wid ∈ v.downvotes) := by
  have h1 : findUser (upvote_word (some ses) wid db).1.users ses.google_id
      = (findUser db.users ses.google_id).map
          (fun u => { u with upvotes := addToSet u.upvotes wid }) :=
    findUser_updateUserById db.users ses.google_id _ (fun _ => rfl)
  have h2 : findUser (downvote_word (some ses) wid db).1.users ses.google_id
      = (findUser db.users ses.google_id).map
          (fun u => { u with downvotes := addToSet u.downvotes wid }) :=
    findUser_updateUserById db.users ses.google_id _ (fun _ => rfl)
  refine ⟨h1, h2, ?_⟩
  intro u hu hd
  refine ⟨{ u with upvotes := addToSet u.upvotes wid }, ?_, mem_addToSet _ _, hd⟩
  rw [h1, hu]
  rfl

/-- C3 witness: in the concrete store where user g downvoted word 1, the
amended statement produces a user document holding the id in both sets. -/
theorem vote_sets_spec_witness :
    ∃ v, findUser (upvote_word (some ses0) 1 dbC3).1.users ses0.google_id = some v
      ∧ 1 ∈ v.upvotes ∧ 1 ∈ v.downvotes :=
  (vote_sets_spec ses0 1 dbC3).2.2 uDown (by decide) (by decide)

/-- C10: an unauthenticated undo_upvote first decrements the word's upvote
counter and only then fails at the session lookup, so the request errors with
the words collection already mutated and the users collection unchanged. -/
theorem undo_upvote_noauth_spec (wid : Nat) (db : DB) :
    (undo_upvote none wid db).2 = Response.serverError
    ∧ (undo_upvote none wid db).1.users = db.users
    ∧ findById (undo_upvote none wid db).1.words wid
        = (findById db.words wid).map (fun w => { w with upvote := w.upvote - 1 }) :=
  ⟨rfl, rfl, findById_updateWordById db.words wid _ (fun _ => rfl)⟩

/-- C4: the listing returns only approved words, sorted by upvote descending
with ties broken by id descending, cut out by offset/limit with page size 8
and totalPages the ceiling of the approved count over 8; on the concrete
store of 10 approved words with upvotes 10..1, page 1 is the 8 highest
upvotes in descending order and totalPages is 2. -/
theorem get_words_spec (db : DB) (p : Nat) :
    (∀ w ∈ (get_words db p).1, w.status = Status.approved)
    ∧ List.Sorted wordBefore (get_words db p).1
    ∧ (get_words db p).1
        = (((List.insertionSort wordBefore db.words).filter approvedFilter).drop
            ((p - 1) * 8)).take 8
    ∧ (get_words db p).2 = ((db.words.filter approvedFilter).length + 7) / 8
    ∧ (get_words db10 1).1.map (fun w => w.upvote) = [10, 9, 8, 7, 6, 5, 4, 3]
    ∧ (get_words db10 1).2 = 2 := by
  refine ⟨?_, ?_, rfl, rfl, by decide, by decide⟩
  · intro w hw
    have hw' : w ∈ (((List.insertionSort wordBefore db.words).filter approvedFilter).drop
        ((p - 1) * 8)).take 8 := hw
    have hf := mem_page_filter hw'
    simpa [approvedFilter] using hf
  · exact sorted_page db.words approvedFilter ((p - 1) * 8) 8

/-- C4 witness: the concrete paginated listing has two pages, and a word of
page 1 is approved. -/
theorem get_words_spec_witness :
    (get_words db10 1).2 = 2
    ∧ (mkWord 10 10 Status.approved "w" "d").status = Status.approved :=
  ⟨(get_words_spec db10 1).2.2.2.2.2,
   (get_words_spec db10 1).1 (mkWord 10 10 Status.approved "w" "d") (by decide)⟩

/-- C5 as amended: search returns only approved words matching the query,
in the listing's sort order, with offset/limit pagination at page size 2; but
totalPages counts ALL words matching the query regardless of status.  When
the query matches exactly one word of the whole store and that word is
approved, the result is that single word with totalPages 1. -/
theorem search_spec (q : String) (p : Nat) (db : DB) :
    (∀ w ∈ (search q p db).1,
        w.status = Status.approved ∧ textMatches (lowerString q) w = true)
    ∧ List.Sorted wordBefore (search q p db).1
    ∧ (search q p db).2
        = ((db.words.filter (fun v => textMatches (lowerString q) v)).length + 1) / 2
    ∧ (∀ w, db.words.filter (fun v => textMatches (lowerString q) v) = [w] →
        w.status = Status.approved → search q 1 db = ([w], 1)) := by
  refine ⟨?_, ?_, rfl, ?_⟩
  · intro w hw
    have hw' : w ∈ ((List.insertionSort wordBefore
        (db.words.filter (fun v => approvedFilter v && textMatches (lowerString q) v))).drop
          ((p - 1) * 2)).take 2 := hw
    have hf := mem_page_filter2 hw'
    have hsplit := (Bool.and_eq_true _ _).mp hf
    exact ⟨by simpa [approvedFilter] using hsplit.1, hsplit.2⟩
  · exact sorted_page2 _ ((p - 1) * 2) 2
  · intro w hfil happ
    have happf : approvedFilter w = true := by simp [approvedFilter, happ]
    have hcomm : db.words.filter (fun v => approvedFilter v && textMatches (lowerString q) v)
        = (db.words.filter (fun v => textMatches (lowerString q) v)).filter approvedFilter :=
      (List.filter_filter _ _).symm
    have hfil2 : db.words.filter (fun v => approvedFilter v && textMatches (lowerString q) v)
        = [w] := by
      rw [hcomm, hfil]
      simp [happf]
    have h1 : (search q 1 db).1 = [w] := by
      show ((List.insertionSort wordBefore
          (db.words.filter (fun v => approvedFilter v && textMatches (lowerString q) v))).drop
            ((1 - 1) * 2)).take 2 = [w]
      rw [hfil2]
      rfl
    have h2 : (search q 1 db).2 = 1 := by
      show ((db.words.filter (fun v => textMatches (lowerString q) v)).length + 2 - 1) / 2 = 1
      rw [hfil]
      norm_num
    have hpair : search q 1 db = ((search q 1 db).1, (search q 1 db).2) := rfl
    rw [hpair, h1, h2]

/-- C5 witness: on the store where zebra occurs in exactly one (approved)
word, search returns that word alone with totalPages 1. -/
theorem search_spec_witness : search "zebra" 1 dbSingle = ([wZebra], 1) :=
  (search_spec "zebra" 1 dbSingle).2.2.2 wZebra (by decide) (by decide)

/-- C5 counterexample: exactly one approved word matches zebra (in its
definition), and search indeed returns that single word, yet totalPages is 2,
not 1, because the count also includes the pending and declined matches. -/
theorem search_totalPages_counterexample :
    dbSearch.words.filter
        (fun v => approvedFilter v && textMatches (lowerString "zebra") v) = [wZebra]
    ∧ (search "zebra" 1 dbSearch).1 = [wZebra]
    ∧ (search "zebra" 1 dbSearch).2 = 2 := by
  decide

/-- C7 counterexample: a declined word, after a later approve action, shows
up again in the approved listing, so declined is not terminal. -/
theorem declined_then_approved_counterexample :
    (findById dbDecl.words 1).map (fun w => w.status) = some Status.declined
    ∧ (get_words (approve_word "approve" 1 dbDecl).1 1).1.map (fun w => w.oid) = [1] := by
  decide

/-- C7 as amended: the moderation handler sets the matched word's status to
the action's status whatever the current status is — in particular approve
moves a declined word back to approved, and it then reappears in the listing;
moderation never produces status pending on any word that was not already
pending. -/
theorem approve_word_spec (action : String) (wid : Nat) (db : DB) :
    (action = "approve" →
      findById (approve_word action wid db).1.words wid
        = (findById db.words wid).map (fun w => { w with status := Status.approved }))
    ∧ (action = "decline" →
      findById (approve_word action wid db).1.words wid
        = (findById db.words wid).map (fun w => { w with status := Status.declined }))
    ∧ (action ≠ "approve" → action ≠ "decline" → (approve_word action wid db).1 = db)
    ∧ (∀ w ∈ (approve_word action wid db).1.words, w.status = Status.pending → w ∈ db.words) := by
  refine ⟨?_, ?_, ?_, ?_⟩
  · intro ha; subst ha
    exact findById_updateWordById db.words wid _ (fun _ => rfl)
  · intro hd; subst hd
    exact findById_updateWordById db.words wid _ (fun _ => rfl)
  · intro ha hd
    simp [approve_word, ha, hd]
  · intro w hw hpend
    by_cases ha : action = "approve"
    · subst ha
      have hw' : w ∈ updateWordById db.words wid (fun x => { x with status := Status.approved }) :=
        hw
      rcases mem_updateFirst hw' with hm | ⟨x, hx, rfl⟩
      · exact hm
      · simp at hpend
    · by_cases hd : action = "decline"
      · subst hd
        have hw' : w ∈ updateWordById db.words wid (fun x => { x with status := Status.declined }) :=
          hw
        rcases mem_updateFirst hw' with hm | ⟨x, hx, rfl⟩
        · exact hm
        · simp at hpend
      · have hsame : (approve_word action wid db).1 = db := by
          simp [approve_word, ha, hd]
        rw [hsame] at hw
        exact hw

/-- C7 witness: approving the concrete declined word rewrites its status to
approved. -/
theorem approve_word_spec_witness :
    findById (approve_word "approve" 1 dbDecl).1.words 1
      = (findById dbDecl.words 1).map (fun w => { w with status := Status.approved }) :=
  (approve_word_spec "approve" 1 dbDecl).1 rfl

/-- C9: moderating a word id absent from the words collection leaves the
store unchanged and still answers with the dashboard redirect (no error). -/
theorem approve_missing_noop (action : String) (wid : Nat) (db : DB)
    (h : findById db.words wid = none) :
    approve_word action wid db = (db, Response.redirect "/adminDashboard") := by
  have h1 : ∀ f : Word → Word, updateWordById db.words wid f = db.words :=
    fun f => updateFirst_eq_self _ f db.words h
  simp [approve_word, h1]

/-- C9 witness: moderating the absent id 99 in the concrete store is a
no-op. -/
theorem approve_missing_noop_witness :
    approve_word "approve" 99 dbDecl = (dbDecl, Response.redirect "/adminDashboard") :=
  approve_missing_noop "approve" 99 dbDecl (by decide)

end DesiDict
